import Mathlib

/-!
# Verification of `Thread` (src/src/thread.ts)

A shallow embedding of the `Thread` class from `src/src/thread.ts` of
vscode-js-debug. The class mediates between a remote debugging protocol
transport (the `Target` collaborator) and a shared source registry (the
`SourceContainer` collaborator).

Modelling conventions:

* The mutable instance fields `_threadId`, `_threadName`, `_pausedDetails`,
  `_scripts` become the fields of a `Thread` structure; each method becomes a
  function `Thread → ... → Thread × List Effect` returning the updated state
  together with the ordered list of calls it makes on the collaborators
  (registry calls, transport commands, `EventEmitter` emissions).
* The JavaScript `Map<string, Source>` is embedded as an association list with
  JS `Map` semantics: `set` replaces the value in place when the key exists
  and appends otherwise; `values()` is the list of values in that order.
* `Source.createWithContentGetter(readableUrl, getter)` allocates a fresh
  object whose lazy getter fetches the script source by `event.scriptId`.
  We defunctionalize the getter to the captured `scriptId`, and model JS
  object identity by a `handleId` drawn from an allocation counter that is
  threaded through every step.
* `Protocol.Debugger.PausedEvent` is external (devtools-protocol); only the
  fact that it is an opaque payload matters here, so it is a one-field
  structure.
-/

/-- Opaque stand-in for `Protocol.Debugger.PausedEvent`: the code stores and
returns the payload without inspecting it. -/
structure PausedEvent where
  reason : String
deriving DecidableEq, Repr

/-- The fields of `Protocol.Debugger.ScriptParsedEvent` that
`Thread._onScriptParsed` reads: `scriptId`, `url`, `sourceMapURL`.
`sourceMapURL` is optional in the protocol; `none` models the absent field. -/
structure ScriptParsedEvent where
  scriptId : String
  url : String
  sourceMapURL : Option String
deriving DecidableEq, Repr

/-- A `Source` handle produced by `Source.createWithContentGetter`.
`readableUrl` is the first argument; `contentScriptId` defunctionalizes the
lazy content getter (which fetches `getScriptSource` by the captured
`event.scriptId`); `handleId` models JS object identity: each call to the
factory yields a fresh object, so each model allocation draws a fresh tag
from a counter. -/
structure Source where
  readableUrl : String
  contentScriptId : String
  handleId : Nat
deriving DecidableEq, Repr

/-- The three notification kinds of `ThreadEvents`; the payload of each
emission is the `Thread` instance itself, so only the kind is recorded. -/
inductive ThreadNotification where
  | threadNameChanged
  | threadPaused
  | threadResumed
deriving DecidableEq, Repr

/-- One observable call made by a `Thread` method on its collaborators, in
program order: registry calls on `SourceContainer`, the `Debugger.resume`
transport command, and `EventEmitter` emissions. -/
inductive Effect where
  | addSource (s : Source)
  | removeSources (ss : List Source)
  | attachSourceMap (s : Source) (resolvedSourceMapUrl : String)
  | resumeCommand
  | emitted (n : ThreadNotification)
deriving DecidableEq, Repr

/-- JS `Map.prototype.set` on an association list: if the key is present the
value is replaced in place (insertion position kept), otherwise the pair is
appended. -/
def mapSet (m : List (String × Source)) (k : String) (v : Source) :
    List (String × Source) :=
  if m.any (fun kv => kv.1 = k) then
    m.map (fun kv => if kv.1 = k then (k, v) else kv)
  else
    m ++ [(k, v)]

/-- JS `Map.prototype.get` on the association list. -/
def mapGet (m : List (String × Source)) (k : String) : Option Source :=
  (m.find? (fun kv => kv.1 = k)).map (fun kv => kv.2)

/-- JS `Map.prototype.values()` (insertion order). -/
def mapValues (m : List (String × Source)) : List Source :=
  m.map (fun kv => kv.2)

/-- The mutable state of one `Thread` instance. The `_target` reference is
external; the only data the embedded methods read from it is the target's
current document URL, which is passed as an explicit argument where needed. -/
structure Thread where
  _threadId : Nat
  _threadName : String
  _pausedDetails : Option PausedEvent
  _scripts : List (String × Source)
deriving DecidableEq, Repr

/-- The `Thread` constructor: `this._threadId = ++Thread._lastThreadId`, empty
name, no paused details, empty script map. The process-wide static counter
`_lastThreadId` is threaded explicitly: the result pairs the new instance with
the updated counter value. -/
def Thread.new (lastThreadId : Nat) : Thread × Nat :=
  let id := lastThreadId + 1
  ({ _threadId := id, _threadName := "", _pausedDetails := none,
     _scripts := [] }, id)

def Thread.threadId (t : Thread) : Nat := t._threadId

def Thread.threadName (t : Thread) : String := t._threadName

def Thread.pausedDetails (t : Thread) : Option PausedEvent := t._pausedDetails

/-- Method `scripts()` returns `this._scripts` itself — the internal `Map` object,
not a copy and not a read-only wrapper (thread.ts: `return this._scripts;`). -/
def Thread.scripts (t : Thread) : List (String × Source) := t._scripts

/-- Because `scripts()` returns the internal map by reference, a caller
running `thread.scripts().clear()` clears the Thread's own `_scripts` map.
This definition embeds that caller-side mutation under JS reference
semantics. -/
def Thread.clearViaScriptsView (t : Thread) : Thread :=
  { t with _scripts := [] }

/-- Method `resume()`: issues the one-shot `Debugger.resume` command on the
transport; the method body assigns no instance field, so the state is
returned unchanged. -/
def Thread.resume (t : Thread) : Thread × List Effect :=
  (t, [Effect.resumeCommand])

/-- Method `setThreadName`: overwrites `_threadName`, then synchronously emits
`ThreadNameChanged`. -/
def Thread.setThreadName (t : Thread) (threadName : String) :
    Thread × List Effect :=
  ({ t with _threadName := threadName },
   [Effect.emitted ThreadNotification.threadNameChanged])

/-- Method `_reset()`: snapshots `this._scripts.values()`, clears the map, and makes
one `removeSources(...scripts)` call with exactly that snapshot. The three
steps form one synchronous method body with no suspension point, so the
embedding performs them as a single step: the cleared state and the single
registry call are produced together. -/
def Thread._reset (t : Thread) : Thread × List Effect :=
  let scripts := mapValues t._scripts
  ({ t with _scripts := [] }, [Effect.removeSources scripts])

/-- Method `dispose()`: calls `this._reset()` (the trailing debug log is not
observable state). -/
def Thread.dispose (t : Thread) : Thread × List Effect :=
  t._reset

/-- The handler installed for `Debugger.on('paused', ...)`: stores the full
event payload and emits `ThreadPaused`. -/
def Thread.onPaused (t : Thread) (event : PausedEvent) : Thread × List Effect :=
  ({ t with _pausedDetails := some event },
   [Effect.emitted ThreadNotification.threadPaused])

/-- The handler installed for `Debugger.on('resumed', ...)`: clears
`_pausedDetails` (the source assigns `null`; `null` and `undefined` both
embed as `none`) and emits `ThreadResumed`. -/
def Thread.onResumed (t : Thread) : Thread × List Effect :=
  ({ t with _pausedDetails := none },
   [Effect.emitted ThreadNotification.threadResumed])

/-- Does the character list start with the given pattern? -/
def listStartsWith : List Char → List Char → Bool
  | _, [] => true
  | [], _ :: _ => false
  | c :: cs, p :: ps => c = p && listStartsWith cs ps

/-- Split a character list at the first occurrence of a non-empty pattern,
returning the part before and the part after; `none` when the pattern does
not occur. -/
def breakAtSubstr (pat : List Char) : List Char → Option (List Char × List Char)
  | [] => none
  | c :: cs =>
    if listStartsWith (c :: cs) pat then
      some ([], (c :: cs).drop pat.length)
    else
      match breakAtSubstr pat cs with
      | some (pre, post) => some (c :: pre, post)
      | none => none

/-- The part of a character list up to and including its last slash
(empty when there is no slash). -/
def upToLastSlash (cs : List Char) : List Char :=
  ((cs.reverse.dropWhile (fun c => c ≠ '/')).reverse)

/-- Modelled from the spec: `utils.completeUrl` (from `src/utils.ts`, a file
of this repository not included under `src/`) resolves `url` against `base`,
returning the absolute URL, and fails when no base is available. The spec's
worked examples fix the behaviour used here: an absolute `url` (one that
contains a scheme separator) stands alone; against an absolute `base`, a
root-relative `url` is joined to the base's origin and any other `url`
replaces the last path segment of `base`; with no absolute base the
resolution fails. -/
def completeUrl (base url : String) : Option String :=
  let sep : List Char := [':', '/', '/']
  let u := url.toList
  if (breakAtSubstr sep u).isSome then
    some url
  else
    match breakAtSubstr sep base.toList with
    | none => none
    | some (scheme, rest) =>
      if u.headD ' ' = '/' then
        some (String.mk (scheme ++ sep ++ rest.takeWhile (fun c => c ≠ '/') ++ u))
      else
        some (String.mk (upToLastSlash base.toList ++ u))

/-- The `Source` handle allocated by `_onScriptParsed`: readable URL is
`event.url || VM + event.scriptId` (JS `||`: the empty string is falsy), the
lazy content getter captures `event.scriptId`, and the handle identity is the
current allocation counter. -/
def allocatedSource (event : ScriptParsedEvent) (counter : Nat) : Source :=
  { readableUrl := if event.url = "" then "VM" ++ event.scriptId else event.url,
    contentScriptId := event.scriptId,
    handleId := counter }

/-- The source-map resolution chain of `_onScriptParsed`, transcribed from
the code: `event.sourceMapURL` must be truthy; then
`resolvedSourceUrl = completeUrl(this._target.url(), event.url)` must be
truthy (the `resolvedSourceUrl && ...` guard); then
`resolvedSourceMapUrl = completeUrl(resolvedSourceUrl, event.sourceMapURL)`
must be truthy (the `if (resolvedSourceMapUrl)` guard). JS truthiness for
strings makes both `undefined` (here `none`) and `""` fail a guard. -/
def resolvedSourceMapUrl (targetUrl : String) (event : ScriptParsedEvent) :
    Option String :=
  match event.sourceMapURL with
  | none => none
  | some smu =>
    if smu = "" then none
    else
      match completeUrl targetUrl event.url with
      | none => none
      | some r =>
        if r = "" then none
        else
          match completeUrl r smu with
          | none => none
          | some u => if u = "" then none else some u

/-- A string option as a JS truthiness guard: `none` stays `none` and the
empty string becomes `none`. -/
def jsTruthy : Option String → Option String
  | none => none
  | some s => if s = "" then none else some s

/-- The spec's description of source-map URL resolution, written from the
spec's words for comparison with the code's `resolvedSourceMapUrl`: when the
event carries a (truthy) source-map URL, first resolve the script's own URL
against the target's current document URL, then resolve the source-map URL
against that resolved script URL; each step is guarded so that a failed
resolution aborts the chain. -/
def twoStepResolution (docUrl : String) (event : ScriptParsedEvent) :
    Option String :=
  (jsTruthy event.sourceMapURL).bind fun smu =>
    (jsTruthy (completeUrl docUrl event.url)).bind fun resolvedScriptUrl =>
      jsTruthy (completeUrl resolvedScriptUrl smu)

/-- Handler `_onScriptParsed(event)`: computes the readable URL
(`event.url || VM + scriptId`), allocates the `Source` handle with its lazy
content getter, stores it under `event.scriptId` in the local map, calls
`addSource`, and — when `event.sourceMapURL` is truthy — resolves the script
URL against the target's document URL and then the source-map URL against
that result, calling `attachSourceMap` only when the whole chain produces a
truthy URL. `targetUrl` is the value of `this._target.url()` at the time of
the event; `counter` is the allocation counter for handle identity. -/
def Thread._onScriptParsed (t : Thread) (targetUrl : String) (counter : Nat)
    (event : ScriptParsedEvent) : Thread × Nat × List Effect :=
  let source := allocatedSource event counter
  let t1 := { t with _scripts := mapSet t._scripts event.scriptId source }
  let attach : List Effect :=
    match resolvedSourceMapUrl targetUrl event with
    | none => []
    | some u => [Effect.attachSourceMap source u]
  (t1, counter + 1, Effect.addSource source :: attach)

/-- The push events a `Thread`'s installed handlers react to. -/
inductive ProtoEvent where
  | executionContextsCleared
  | pausedEvt (p : PausedEvent)
  | resumedEvt
  | scriptParsedEvt (e : ScriptParsedEvent)
deriving DecidableEq, Repr

/-- Dispatch of one incoming push event to the handler `initialize()`
installed for it. -/
def Thread.onEvent (targetUrl : String) (t : Thread) (counter : Nat) :
    ProtoEvent → Thread × Nat × List Effect
  | ProtoEvent.executionContextsCleared =>
      let (t1, fx) := t._reset
      (t1, counter, fx)
  | ProtoEvent.pausedEvt p =>
      let (t1, fx) := t.onPaused p
      (t1, counter, fx)
  | ProtoEvent.resumedEvt =>
      let (t1, fx) := t.onResumed
      (t1, counter, fx)
  | ProtoEvent.scriptParsedEvt e =>
      t._onScriptParsed targetUrl counter e

/-- Every operation that can act on a live `Thread`: an incoming push event
or a direct method call by the owner/frontend. -/
inductive ThreadAction where
  | proto (ev : ProtoEvent)
  | callResume
  | callDispose
  | callSetThreadName (n : String)
deriving DecidableEq, Repr

/-- One step of the `Thread` state machine. -/
def Thread.step (targetUrl : String) (t : Thread) (counter : Nat) :
    ThreadAction → Thread × Nat × List Effect
  | ThreadAction.proto ev => t.onEvent targetUrl counter ev
  | ThreadAction.callResume =>
      let (t1, fx) := t.resume
      (t1, counter, fx)
  | ThreadAction.callDispose =>
      let (t1, fx) := t.dispose
      (t1, counter, fx)
  | ThreadAction.callSetThreadName n =>
      let (t1, fx) := t.setThreadName n
      (t1, counter, fx)

/-- Run a sequence of actions from a given state (events are processed one at
a time, in arrival order, by the single cooperative event loop). -/
def Thread.run (targetUrl : String) (t : Thread) (counter : Nat) :
    List ThreadAction → Thread × Nat
  | [] => (t, counter)
  | a :: rest =>
      Thread.run targetUrl (t.step targetUrl counter a).1
        (t.step targetUrl counter a).2.1 rest

/-- The pause payload carried by an action: `some p` exactly for the
`paused` push event. -/
def pauseOf : ThreadAction → Option PausedEvent
  | ThreadAction.proto (ProtoEvent.pausedEvt p) => some p
  | _ => none

/-- The payload of the last `paused` push event in a list of actions, if
any (later events take precedence). -/
def lastPause : List ThreadAction → Option PausedEvent
  | [] => none
  | a :: rest =>
    match lastPause rest with
    | some p => some p
    | none => pauseOf a

/-- How one action transforms the `_pausedDetails` field: a `paused` event
stores its payload, a `resumed` event clears the field, and every other
action leaves it alone. -/
def pdStep (pd : Option PausedEvent) : ThreadAction → Option PausedEvent
  | ThreadAction.proto (ProtoEvent.pausedEvt p) => some p
  | ThreadAction.proto ProtoEvent.resumedEvt => none
  | _ => pd

/-- The projection extracting `addSource` registry calls from an effect
list. -/
def addedSourceOf : Effect → Option Source
  | Effect.addSource s => some s
  | _ => none

/-- The projection extracting `attachSourceMap` registry calls (handle and
resolved URL) from an effect list. -/
def attachedOf : Effect → Option (Source × String)
  | Effect.attachSourceMap s u => some (s, u)
  | _ => none

/-- Construct `n` Threads in sequence, threading the process-wide
`_lastThreadId` counter starting from `c`. -/
def mkThreads : Nat → Nat → List Thread
  | 0, _ => []
  | n + 1, c => (Thread.new c).1 :: mkThreads n (Thread.new c).2

/-- The two protocol domains `initialize()` activates. -/
inductive CdpDomain where
  | runtime
  | debuggerDomain
deriving DecidableEq, Repr

/-- The four push-event handlers `initialize()` installs. -/
inductive HandlerKind where
  | onContextsCleared
  | onPausedKind
  | onResumedKind
  | onScriptParsedKind
deriving DecidableEq, Repr

/-- The domain that emits each handler's events: `executionContextsCleared`
comes from `Runtime`; `paused`, `resumed` and `scriptParsed` come from
`Debugger`. -/
def emitterDomain : HandlerKind → CdpDomain
  | HandlerKind.onContextsCleared => CdpDomain.runtime
  | _ => CdpDomain.debuggerDomain

/-- One step of the `initialize()` body: installing a handler or awaiting a
domain activation (`enable`). -/
inductive InitStep where
  | subscribeTo (h : HandlerKind)
  | enableDomain (d : CdpDomain)
deriving DecidableEq, Repr

/-- Transcription of the `initialize()` body in program order:
`Runtime.on('executionContextsCleared')`, `await Runtime.enable()`,
`Debugger.on('paused')`, `Debugger.on('resumed')`,
`Debugger.on('scriptParsed')`, `await Debugger.enable()`. -/
def initializeSteps : List InitStep :=
  [InitStep.subscribeTo HandlerKind.onContextsCleared,
   InitStep.enableDomain CdpDomain.runtime,
   InitStep.subscribeTo HandlerKind.onPausedKind,
   InitStep.subscribeTo HandlerKind.onResumedKind,
   InitStep.subscribeTo HandlerKind.onScriptParsedKind,
   InitStep.enableDomain CdpDomain.debuggerDomain]

/-- Wellformedness of a Thread's script map relative to the allocation
counter: keys are pairwise distinct (JS `Map` semantics), each stored handle
records the script id it is keyed under, and every allocated handle identity
is below the counter. Holds for a fresh thread with any counter and is
preserved by every step. -/
def ScriptsWF (t : Thread) (c : Nat) : Prop :=
  (t._scripts.map (fun kv => kv.1)).Nodup ∧
  ∀ kv ∈ t._scripts, kv.2.contentScriptId = kv.1 ∧ kv.2.handleId < c

/-- A script-parsed event with empty URL and script id `7`, as in the spec's
worked example. -/
def vmEvent7 : ScriptParsedEvent :=
  { scriptId := "7", url := "", sourceMapURL := none }

/-- A fresh thread that has seen exactly one script-parsed event. -/
def sampleThread : Thread :=
  ((Thread.new 0).1._onScriptParsed "" 0 vmEvent7).1

/-! ## Helper lemmas -/

theorem step_pausedDetails (tu : String) (t : Thread) (c : Nat)
    (a : ThreadAction) :
    ((Thread.step tu t c a).1)._pausedDetails = pdStep t._pausedDetails a := by
  cases a with
  | proto ev => cases ev <;> rfl
  | callResume => rfl
  | callDispose => rfl
  | callSetThreadName n => rfl

theorem step_threadId (tu : String) (t : Thread) (c : Nat) (a : ThreadAction) :
    ((Thread.step tu t c a).1)._threadId = t._threadId := by
  cases a with
  | proto ev => cases ev <;> rfl
  | callResume => rfl
  | callDispose => rfl
  | callSetThreadName n => rfl

theorem run_pausedDetails (tu : String) (acts : List ThreadAction) :
    ∀ (t : Thread) (c : Nat),
      ((Thread.run tu t c acts).1)._pausedDetails
        = acts.foldl pdStep t._pausedDetails := by
  induction acts with
  | nil => intro t c; rfl
  | cons a rest ih =>
    intro t c
    simp only [Thread.run, List.foldl_cons]
    rw [ih, step_pausedDetails]

theorem run_threadId (tu : String) (acts : List ThreadAction) :
    ∀ (t : Thread) (c : Nat),
      ((Thread.run tu t c acts).1)._threadId = t._threadId := by
  induction acts with
  | nil => intro t c; rfl
  | cons a rest ih =>
    intro t c
    simp only [Thread.run]
    rw [ih, step_threadId]

theorem lastPause_append (xs : List ThreadAction) (a : ThreadAction) :
    lastPause (xs ++ [a]) =
      match pauseOf a with
      | some p => some p
      | none => lastPause xs := by
  induction xs with
  | nil => cases h : pauseOf a <;> simp [lastPause, h]
  | cons b xs ih =>
    have e : lastPause ((b :: xs) ++ [a]) =
        match lastPause (xs ++ [a]) with
        | some p => some p
        | none => pauseOf b := rfl
    rw [e, ih]
    cases pauseOf a with
    | some p => rfl
    | none => rfl

theorem foldl_pdStep_none (acts : List ThreadAction) :
    acts.foldl pdStep none = none ∨ acts.foldl pdStep none = lastPause acts := by
  induction acts using List.reverseRecOn with
  | nil => exact Or.inl rfl
  | append_singleton xs a ih =>
    rw [List.foldl_append, lastPause_append]
    cases a with
    | proto ev =>
      cases ev with
      | pausedEvt p => exact Or.inr rfl
      | resumedEvt => exact Or.inl rfl
      | executionContextsCleared => simpa [pdStep, pauseOf] using ih
      | scriptParsedEvt e => simpa [pdStep, pauseOf] using ih
    | callResume => simpa [pdStep, pauseOf] using ih
    | callDispose => simpa [pdStep, pauseOf] using ih
    | callSetThreadName n => simpa [pdStep, pauseOf] using ih

theorem lastPause_eq_none (acts : List ThreadAction)
    (h : ∀ a ∈ acts, pauseOf a = none) : lastPause acts = none := by
  induction acts with
  | nil => rfl
  | cons a rest ih =>
    simp only [lastPause]
    rw [ih (fun b hb => h b (List.mem_cons_of_mem a hb)),
      h a (List.mem_cons_self a rest)]

theorem resolvedSourceMapUrl_eq_twoStep (docUrl : String)
    (e : ScriptParsedEvent) :
    resolvedSourceMapUrl docUrl e = twoStepResolution docUrl e := by
  unfold resolvedSourceMapUrl twoStepResolution
  cases e.sourceMapURL with
  | none => rfl
  | some smu =>
    by_cases h1 : smu = ""
    · simp [jsTruthy, h1]
    · simp only [jsTruthy, if_neg h1, Option.some_bind]
      cases completeUrl docUrl e.url with
      | none => rfl
      | some r =>
        by_cases h3 : r = ""
        · simp [jsTruthy, h3]
        · simp only [jsTruthy, if_neg h3, Option.some_bind]

/-! ## Claim theorems -/

/-- C1: `dispose()` is exactly the internal `_reset()`; after it the script
map returned by `scripts()` is empty, and the one step produces a single
`removeSources` registry call carrying exactly the snapshot of Source
handles held in the local map at the moment of reset — the snapshot, the
clear and the registry notification are one atomic step, so no partial
removal is observable. -/
theorem dispose_atomic_reset (t : Thread) :
    t.dispose = t._reset ∧
    (t.dispose).1.scripts = [] ∧
    (t.dispose).2 = [Effect.removeSources (mapValues t._scripts)] ∧
    (t._reset).1.scripts = [] ∧
    (t._reset).2 = [Effect.removeSources (mapValues t._scripts)] :=
  ⟨rfl, rfl, rfl, rfl, rfl⟩

/-- C2 counterexample: after a `paused` event, neither `dispose()` nor the
contexts-cleared reset clears the paused-state snapshot — `_reset` touches
only the script map — so the claim that the snapshot is cleared by each of
resumed, reset and dispose is false on the code. -/
theorem pausedState_survives_dispose_counterexample :
    (Thread.run "" (Thread.new 0).1 0
        [ThreadAction.proto (ProtoEvent.pausedEvt { reason := "breakpoint" }),
         ThreadAction.callDispose]).1.pausedDetails ≠ none ∧
    (Thread.run "" (Thread.new 0).1 0
        [ThreadAction.proto (ProtoEvent.pausedEvt { reason := "breakpoint" }),
         ThreadAction.proto
           ProtoEvent.executionContextsCleared]).1.pausedDetails ≠ none :=
  ⟨by decide, by decide⟩

/-- C2 (amended): the paused-state snapshot is cleared by a `resumed` event;
an internal reset and `dispose()` leave it untouched (they clear only the
script map); and along any action sequence from a fresh thread the snapshot
is at all times either absent or equal to the payload of the last `paused`
event, so exactly one of {absent, last-pause-payload} always holds. -/
theorem pausedState_invariant_amended (t : Thread) (targetUrl : String)
    (lastId c : Nat) (acts : List ThreadAction) :
    (t.onResumed).1.pausedDetails = none ∧
    (t._reset).1.pausedDetails = t.pausedDetails ∧
    (t.dispose).1.pausedDetails = t.pausedDetails ∧
    ((Thread.run targetUrl (Thread.new lastId).1 c acts).1.pausedDetails = none ∨
     (Thread.run targetUrl (Thread.new lastId).1 c acts).1.pausedDetails =
       lastPause acts) := by
  refine ⟨rfl, rfl, rfl, ?_⟩
  have h := run_pausedDetails targetUrl acts (Thread.new lastId).1 c
  rw [Thread.pausedDetails, h]
  exact foldl_pdStep_none acts

/-- C3: starting from a freshly constructed thread, any action sequence
containing no `paused` event leaves `pausedState()` absent; immediately
after a `paused` event with payload `p` it returns exactly `some p`; and
immediately after the following `resumed` event it is absent again. -/
theorem pausedState_event_lifecycle (t : Thread) (targetUrl : String)
    (lastId c : Nat) (p : PausedEvent) (acts : List ThreadAction)
    (h : ∀ a ∈ acts, pauseOf a = none) :
    (Thread.run targetUrl (Thread.new lastId).1 c acts).1.pausedDetails
      = none ∧
    (Thread.onEvent targetUrl t c (ProtoEvent.pausedEvt p)).1.pausedDetails
      = some p ∧
    (Thread.onEvent targetUrl ((t.onPaused p).1) c
        ProtoEvent.resumedEvt).1.pausedDetails = none := by
  refine ⟨?_, rfl, rfl⟩
  have hr := run_pausedDetails targetUrl acts (Thread.new lastId).1 c
  rw [Thread.pausedDetails, hr]
  rcases foldl_pdStep_none acts with h0 | h0
  · exact h0
  · rw [show (List.foldl pdStep (Thread.new lastId).1._pausedDetails acts)
        = List.foldl pdStep none acts from rfl, h0]
    exact lastPause_eq_none acts h

/-- C3 witness: at the concrete trace [script parsed, resume call] the
paused state is still absent. -/
theorem pausedState_event_lifecycle_witness :
    (Thread.run "" (Thread.new 0).1 0
        [ThreadAction.proto (ProtoEvent.scriptParsedEvt vmEvent7),
         ThreadAction.callResume]).1.pausedDetails = none :=
  (pausedState_event_lifecycle sampleThread "" 0 0 { reason := "x" }
      [ThreadAction.proto (ProtoEvent.scriptParsedEvt vmEvent7),
       ThreadAction.callResume] (by decide)).1

/-- C5: source-map attachment is best effort and follows the spec's two
resolution steps: the attach calls made by `_onScriptParsed` carry exactly
the URL produced by resolving the script URL against the document URL and
then the source-map URL against that result (`twoStepResolution`); when the
chain fails there is no attach call (and the handler is a total function, so
no error is raised), and when it succeeds there is exactly one. -/
theorem scriptParsed_attach_best_effort (t : Thread) (targetUrl : String)
    (c : Nat) (e : ScriptParsedEvent) :
    (((t._onScriptParsed targetUrl c e).2.2.filterMap attachedOf).map
        Prod.snd = (twoStepResolution targetUrl e).toList) ∧
    ((t._onScriptParsed targetUrl c e).2.2.filterMap attachedOf).length ≤ 1 ∧
    (twoStepResolution targetUrl e = none →
      (t._onScriptParsed targetUrl c e).2.2.filterMap attachedOf = []) := by
  have hchain := resolvedSourceMapUrl_eq_twoStep targetUrl e
  refine ⟨?_, ?_, ?_⟩ <;>
    · intros
      simp only [Thread._onScriptParsed, ← hchain] at *
      cases h : resolvedSourceMapUrl targetUrl e <;>
        simp_all [attachedOf, addedSourceOf]

/-- C5 witness: a target with no resolvable document URL and a relative
source-map URL produces no attach call. -/
theorem scriptParsed_attach_best_effort_witness :
    (((Thread.new 0).1._onScriptParsed "" 0
        { scriptId := "1", url := "a.js", sourceMapURL := some "a.js.map" }
      ).2.2.filterMap attachedOf) = [] :=
  (scriptParsed_attach_best_effort (Thread.new 0).1 "" 0
      { scriptId := "1", url := "a.js", sourceMapURL := some "a.js.map" }
    ).2.2 (by decide)

/-- C6: the Source registered for a script-parsed event is identified by the
event's URL when that URL is non-empty, and by the synthetic identifier
`"VM" ++ scriptId` otherwise; in particular the event with empty URL and
script id `"7"` registers a Source identified `"VM7"`. -/
theorem scriptParsed_readable_identifier (t : Thread) (targetUrl : String)
    (c : Nat) (e : ScriptParsedEvent) :
    ((t._onScriptParsed targetUrl c e).2.2.filterMap addedSourceOf).map
        Source.readableUrl
      = [if e.url = "" then "VM" ++ e.scriptId else e.url] ∧
    (((Thread.new 0).1._onScriptParsed "" 0 vmEvent7).2.2.filterMap
        addedSourceOf).map Source.readableUrl = ["VM7"] := by
  constructor
  · simp only [Thread._onScriptParsed]
    cases h : resolvedSourceMapUrl targetUrl e <;>
      simp [addedSourceOf, allocatedSource, h]
  · decide

/-- C7: `initialize()` subscribes the contexts-cleared handler, awaits
`Runtime.enable`, subscribes the paused, resumed and script-parsed handlers,
then awaits `Debugger.enable`; consequently every handler subscription
precedes the activation of the domain that emits its events. -/
theorem initialize_subscribe_before_enable :
    initializeSteps =
      [InitStep.subscribeTo HandlerKind.onContextsCleared,
       InitStep.enableDomain CdpDomain.runtime,
       InitStep.subscribeTo HandlerKind.onPausedKind,
       InitStep.subscribeTo HandlerKind.onResumedKind,
       InitStep.subscribeTo HandlerKind.onScriptParsedKind,
       InitStep.enableDomain CdpDomain.debuggerDomain] ∧
    ∀ h : HandlerKind,
      initializeSteps.indexOf (InitStep.subscribeTo h) <
        initializeSteps.indexOf (InitStep.enableDomain (emitterDomain h)) := by
  refine ⟨rfl, ?_⟩
  intro h
  cases h <;> decide

/-- C8: `resume()` issues exactly one resume command on the transport and
returns the thread state unchanged (id, name, paused state, script map all
identical); the local state change happens only when the `resumed` push
event is later received, which clears the paused state. -/
theorem resume_issues_one_command (t : Thread) (targetUrl : String)
    (c : Nat) :
    t.resume = (t, [Effect.resumeCommand]) ∧
    (Thread.step targetUrl t c ThreadAction.callResume).1 = t ∧
    (Thread.step targetUrl t c ThreadAction.callResume).2.2 =
      [Effect.resumeCommand] ∧
    (Thread.onEvent targetUrl t c ProtoEvent.resumedEvt).1 =
      { t with _pausedDetails := none } :=
  ⟨rfl, rfl, rfl, rfl⟩

/-- C9 counterexample: `scripts()` returns the internal `Map` object itself,
so a caller clearing the returned map mutates the Thread's internal script
map — the claim that no caller can mutate it through the returned value
fails on a thread holding one script. -/
theorem scripts_view_mutable_counterexample :
    ¬ (sampleThread.clearViaScriptsView._scripts = sampleThread._scripts) := by
  decide

/-- C9 (amended): `scripts()` exposes the identifier→Source association as
the internal map itself — a live, mutable view, not a read-only one: a
caller clearing the map returned by `scripts()` empties the Thread's
internal map, observably changing later `scripts()` results whenever the map
was non-empty. -/
theorem scripts_returns_live_internal_map (t : Thread) :
    t.scripts = t._scripts ∧
    t.clearViaScriptsView._scripts = [] ∧
    (t._scripts ≠ [] → t.clearViaScriptsView.scripts ≠ t.scripts) := by
  refine ⟨rfl, rfl, ?_⟩
  intro hne
  simpa [Thread.scripts, Thread.clearViaScriptsView] using
    fun h => hne (Eq.symm h)

/-- C9 witness: on a thread holding one script, clearing through the
returned view changes what `scripts()` returns. -/
theorem scripts_returns_live_internal_map_witness :
    sampleThread.clearViaScriptsView.scripts ≠ sampleThread.scripts :=
  (scripts_returns_live_internal_map sampleThread).2.2 (by decide)

theorem mkThreads_lowerBound :
    ∀ (n c : Nat) (t : Thread), t ∈ mkThreads n c → c < t.threadId := by
  intro n
  induction n with
  | zero => intro c t ht; exact absurd ht (List.not_mem_nil t)
  | succ n ih =>
    intro c t ht
    rcases List.mem_cons.mp ht with h | h
    · subst h; exact Nat.lt_succ_self c
    · exact Nat.lt_of_succ_lt (ih (c + 1) t h)

theorem mkThreads_pairwise (n : Nat) :
    ∀ c : Nat, (mkThreads n c).Pairwise (fun a b => a.threadId < b.threadId) := by
  induction n with
  | zero => intro c; exact List.Pairwise.nil
  | succ n ih =>
    intro c
    refine List.Pairwise.cons ?_ (ih (c + 1))
    intro b hb
    exact mkThreads_lowerBound n (c + 1) b hb

/-- C4: the thread ids of any sequence of `n` constructions (threading the
process-wide `_lastThreadId` counter) are strictly increasing in
construction order, hence pairwise distinct; and no operation on a thread —
push event, resume, dispose, rename — ever changes its id. -/
theorem threadIds_strictly_increasing (n c cnt : Nat) (targetUrl : String)
    (t : Thread) (acts : List ThreadAction) :
    ((mkThreads n c).map Thread.threadId).Pairwise (· < ·) ∧
    ((mkThreads n c).map Thread.threadId).Nodup ∧
    (Thread.run targetUrl t cnt acts).1.threadId = t.threadId := by
  have hp : ((mkThreads n c).map Thread.threadId).Pairwise (· < ·) :=
    List.pairwise_map.mpr (mkThreads_pairwise n c)
  refine ⟨hp, hp.imp (fun h => Nat.ne_of_lt h), ?_⟩
  exact run_threadId targetUrl acts t cnt

/-! ## Association-map lemmas for duplicate registration -/

theorem mem_mapSet (m : List (String × Source)) (k : String) (v : Source)
    (x : String × Source) (hx : x ∈ mapSet m k v) :
    x = (k, v) ∨ (x ∈ m ∧ x.1 ≠ k) := by
  unfold mapSet at hx
  split at hx
  case isTrue h =>
    rcases List.mem_map.mp hx with ⟨kv, hkv, heq⟩
    by_cases hk : kv.1 = k
    · left; rw [if_pos hk] at heq; exact heq.symm
    · right; rw [if_neg hk] at heq; subst heq; exact ⟨hkv, hk⟩
  case isFalse h =>
    rcases List.mem_append.mp hx with h1 | h1
    · right
      refine ⟨h1, fun hk => ?_⟩
      exact h (List.any_eq_true.mpr ⟨x, h1, by simp [hk]⟩)
    · left; simpa using h1

theorem mapSet_keys_nodup (m : List (String × Source)) (k : String)
    (v : Source) (h : (m.map (fun kv => kv.1)).Nodup) :
    ((mapSet m k v).map (fun kv => kv.1)).Nodup := by
  unfold mapSet
  split
  case isTrue hany =>
    have hkeys : ((m.map (fun kv => if kv.1 = k then (k, v) else kv)).map
        (fun kv => kv.1)) = m.map (fun kv => kv.1) := by
      rw [List.map_map]
      apply List.map_congr_left
      intro kv _
      by_cases hk : kv.1 = k
      · simp [hk]
      · simp [hk]
    rw [hkeys]; exact h
  case isFalse hany =>
    rw [List.map_append]
    refine List.Nodup.append h (List.nodup_singleton k) ?_
    intro a ha hb
    rcases List.mem_map.mp ha with ⟨kv, hkv, hk⟩
    have hb1 : a = k := by simpa using hb
    exact hany (List.any_eq_true.mpr ⟨kv, hkv, by simp [hk, hb1]⟩)

theorem find?_replace (k : String) (v : Source) :
    ∀ m : List (String × Source), (m.any fun p => p.1 = k) = true →
      (m.map (fun kv => if kv.1 = k then (k, v) else kv)).find?
          (fun kv => kv.1 = k) = some (k, v) := by
  intro m
  induction m with
  | nil => intro h; simp at h
  | cons kv m ih =>
    intro h
    by_cases hk : kv.1 = k
    · simp [hk, List.find?_cons_of_pos]
    · have h2 : (m.any fun p => p.1 = k) = true := by
        rcases List.any_eq_true.mp h with ⟨p, hp, hpk⟩
        rcases List.mem_cons.mp hp with rfl | hpm
        · exact absurd (by simpa using hpk) hk
        · exact List.any_eq_true.mpr ⟨p, hpm, hpk⟩
      simpa [hk, List.find?_cons_of_neg] using ih h2

theorem find?_append_fresh (k : String) (v : Source) :
    ∀ m : List (String × Source), (m.any fun p => p.1 = k) = false →
      (m ++ [(k, v)]).find? (fun kv => kv.1 = k) = some (k, v) := by
  intro m
  induction m with
  | nil => intro _; simp
  | cons kv m ih =>
    intro h
    rw [List.any_cons] at h
    have hk : ¬ (kv.1 = k) := by
      intro hkk
      simp [hkk] at h
    have h2 : (m.any fun p => p.1 = k) = false := by
      rcases Bool.or_eq_false_iff.mp h with ⟨_, h2⟩
      exact h2
    simpa [hk, List.find?_cons_of_neg] using ih h2

theorem mapGet_mapSet (m : List (String × Source)) (k : String) (v : Source) :
    mapGet (mapSet m k v) k = some v := by
  unfold mapGet mapSet
  split
  case isTrue h => rw [find?_replace k v m h]; rfl
  case isFalse h =>
    have h0 : (m.any fun p => p.1 = k) = false := by
      cases hb : (m.any fun p => p.1 = k)
      · rfl
      · exact absurd hb h
    rw [find?_append_fresh k v m h0]; rfl

theorem mapGet_mem_values (m : List (String × Source)) (k : String)
    (v : Source) (h : mapGet m k = some v) : v ∈ mapValues m := by
  unfold mapGet at h
  cases hf : m.find? (fun kv => kv.1 = k) with
  | none => rw [hf] at h; cases h
  | some kv =>
    rw [hf] at h
    have hv : kv.2 = v := by simpa using h
    exact List.mem_map.mpr ⟨kv, List.mem_of_find?_eq_some hf, hv⟩

theorem onScriptParsed_addSource (t : Thread) (tu : String) (c : Nat)
    (e : ScriptParsedEvent) :
    (t._onScriptParsed tu c e).2.2.filterMap addedSourceOf
      = [allocatedSource e c] := by
  simp only [Thread._onScriptParsed]
  cases h : resolvedSourceMapUrl tu e <;> simp [addedSourceOf, h]

theorem scriptsWF_onScriptParsed (t : Thread) (c : Nat) (tu : String)
    (e : ScriptParsedEvent) (h : ScriptsWF t c) :
    ScriptsWF (t._onScriptParsed tu c e).1 (c + 1) := by
  obtain ⟨hnd, hkv⟩ := h
  constructor
  · exact mapSet_keys_nodup t._scripts e.scriptId (allocatedSource e c) hnd
  · intro kv hkvmem
    rcases mem_mapSet t._scripts e.scriptId (allocatedSource e c) kv hkvmem
      with heq | ⟨hm, _⟩
    · subst heq; exact ⟨rfl, Nat.lt_succ_self c⟩
    · obtain ⟨h1, h2⟩ := hkv kv hm
      exact ⟨h1, Nat.lt_succ_of_lt h2⟩

theorem wf_values_scriptIds_nodup (t : Thread) (c : Nat) (h : ScriptsWF t c) :
    ((mapValues t._scripts).map Source.contentScriptId).Nodup := by
  obtain ⟨hnd, hkv⟩ := h
  have hkeys : (mapValues t._scripts).map Source.contentScriptId
      = t._scripts.map (fun kv => kv.1) := by
    unfold mapValues
    rw [List.map_map]
    apply List.map_congr_left
    intro kv hkvm
    exact (hkv kv hkvm).1
  rw [hkeys]; exact hnd

/-- C10: when two script-parsed events carry the same script id, both
allocated Source handles are passed to `addSource` (one per event), the
second registration overwrites the local map entry, and a later reset's
single `removeSources` call carries the map's values — which contain the
second handle, never the overwritten first handle, and at most one handle
per script id. -/
theorem duplicate_scriptId_registration (t : Thread) (c : Nat)
    (tu1 tu2 : String) (e1 e2 : ScriptParsedEvent) (t2 : Thread)
    (hWF : ScriptsWF t c) (hid : e1.scriptId = e2.scriptId)
    (ht2 : t2 = (((t._onScriptParsed tu1 c e1).1)._onScriptParsed tu2
        ((t._onScriptParsed tu1 c e1).2.1) e2).1) :
    (t._onScriptParsed tu1 c e1).2.2.filterMap addedSourceOf
      = [allocatedSource e1 c] ∧
    (((t._onScriptParsed tu1 c e1).1)._onScriptParsed tu2
        ((t._onScriptParsed tu1 c e1).2.1) e2).2.2.filterMap addedSourceOf
      = [allocatedSource e2 (c + 1)] ∧
    allocatedSource e1 c ≠ allocatedSource e2 (c + 1) ∧
    mapGet t2._scripts e2.scriptId = some (allocatedSource e2 (c + 1)) ∧
    (t2._reset).2 = [Effect.removeSources (mapValues t2._scripts)] ∧
    allocatedSource e2 (c + 1) ∈ mapValues t2._scripts ∧
    allocatedSource e1 c ∉ mapValues t2._scripts ∧
    ((mapValues t2._scripts).map Source.contentScriptId).Nodup := by
  subst ht2
  have e4 : (((t._onScriptParsed tu1 c e1).1)._onScriptParsed tu2
      ((t._onScriptParsed tu1 c e1).2.1) e2).1._scripts
      = mapSet (mapSet t._scripts e1.scriptId (allocatedSource e1 c))
          e2.scriptId (allocatedSource e2 (c + 1)) := rfl
  have hget : mapGet ((((t._onScriptParsed tu1 c e1).1)._onScriptParsed tu2
      ((t._onScriptParsed tu1 c e1).2.1) e2).1._scripts) e2.scriptId
      = some (allocatedSource e2 (c + 1)) := by
    rw [e4]; exact mapGet_mapSet _ _ _
  have hWF2 : ScriptsWF (((t._onScriptParsed tu1 c e1).1)._onScriptParsed tu2
      ((t._onScriptParsed tu1 c e1).2.1) e2).1 (c + 1 + 1) :=
    scriptsWF_onScriptParsed ((t._onScriptParsed tu1 c e1).1) (c + 1) tu2 e2
      (scriptsWF_onScriptParsed t c tu1 e1 hWF)
  have hnotin : allocatedSource e1 c ∉ mapValues ((((t._onScriptParsed tu1 c
      e1).1)._onScriptParsed tu2 ((t._onScriptParsed tu1 c e1).2.1)
      e2).1._scripts) := by
    rw [e4]
    intro hmem
    rcases List.mem_map.mp hmem with ⟨kv, hkvm, hveq⟩
    rcases mem_mapSet _ _ _ kv hkvm with heq | ⟨hm1, hne⟩
    · have hh : (allocatedSource e2 (c + 1)).handleId
          = (allocatedSource e1 c).handleId := by
        rw [← hveq, heq]
      simp only [allocatedSource] at hh
      omega
    · rcases mem_mapSet _ _ _ kv hm1 with heq1 | ⟨hm0, _⟩
      · apply hne
        rw [heq1]
        exact hid
      · have hlt := (hWF.2 kv hm0).2
        rw [hveq] at hlt
        simp only [allocatedSource] at hlt
        omega
  refine ⟨onScriptParsed_addSource t tu1 c e1,
    onScriptParsed_addSource ((t._onScriptParsed tu1 c e1).1) tu2 (c + 1) e2,
    ?_, hget, rfl, mapGet_mem_values _ _ _ hget, hnotin,
    wf_values_scriptIds_nodup _ (c + 1 + 1) hWF2⟩
  intro h
  have hh : c = c + 1 := by
    simpa [allocatedSource] using congrArg Source.handleId h
  omega

/-- C10 witness: two script-parsed events with script id `"7"` on a fresh
thread; the first handle is absent from the values a later reset would
remove. -/
theorem duplicate_scriptId_registration_witness :
    allocatedSource { scriptId := "7", url := "", sourceMapURL := none } 0 ∉
      mapValues ((((Thread.new 0).1._onScriptParsed "" 0
          { scriptId := "7", url := "", sourceMapURL := none }).1
        )._onScriptParsed "" (((Thread.new 0).1._onScriptParsed "" 0
          { scriptId := "7", url := "", sourceMapURL := none }).2.1)
          { scriptId := "7", url := "b.js", sourceMapURL := none }
        ).1._scripts :=
  (duplicate_scriptId_registration (Thread.new 0).1 0 "" ""
      { scriptId := "7", url := "", sourceMapURL := none }
      { scriptId := "7", url := "b.js", sourceMapURL := none }
      _ ⟨by decide, by decide⟩ (by decide) rfl).2.2.2.2.2.2.1
